import Mathlib

/-
Verification development for the batch_renamer repository.
Strings from the Python source are modelled as `List Char`; machine integers
as `Nat`/`Int`; exact rational arithmetic (`Rat`) stands in for Python float
division on EXIF rationals; fallible code returns `Except`/`Option`.
-/

set_option maxRecDepth 4000

namespace BatchRenamer

/-! ## Character and list-of-char utilities (Python `str` operations) -/

/-- Left curly brace character (written via its code point). -/
def lbrace : Char := Char.ofNat 123

/-- Right curly brace character (written via its code point). -/
def rbrace : Char := Char.ofNat 125

/-- ASCII model of Python `str.lower` on a single character. -/
def toLowerChar (c : Char) : Char :=
  if 65 ≤ c.toNat ∧ c.toNat ≤ 90 then Char.ofNat (c.toNat + 32) else c

/-- Python `str.lower` (ASCII model), characterwise over the string. -/
def lowerL (s : List Char) : List Char := s.map toLowerChar

/-- ASCII whitespace characters matched by Python regex class backslash-s. -/
def isWs (c : Char) : Bool :=
  c = ' ' || c = '\t' || c = '\n' || c = '\x0d' || c = '\x0b' || c = '\x0c'

/-- Python `pat in s` substring containment. -/
def occursSub (pat : List Char) : List Char → Bool
  | [] => pat.isPrefixOf []
  | a :: t => pat.isPrefixOf (a :: t) || occursSub pat t

/-- Fuel-driven worker for `replaceAll` (fuel keeps the recursion structural,
so that closed terms evaluate in the kernel). -/
def replaceAllF (pat rep : List Char) : Nat → List Char → List Char
  | _, [] => []
  | 0, s => s
  | f + 1, a :: t =>
    if pat ≠ [] ∧ pat.isPrefixOf (a :: t) then
      rep ++ replaceAllF pat rep f (t.drop (pat.length - 1))
    else
      a :: replaceAllF pat rep f t

/-- Python `s.replace(pat, rep)`: all non-overlapping occurrences, left to right.
(The empty pattern never reaches this code: the caller guards it.) -/
def replaceAll (pat rep s : List Char) : List Char := replaceAllF pat rep s.length s

/-- Python `s.replace(pat, rep, 1)`: first occurrence only. -/
def replaceFirstL (pat rep : List Char) : List Char → List Char
  | [] => []
  | a :: t =>
    if pat ≠ [] ∧ pat.isPrefixOf (a :: t) then
      rep ++ (a :: t).drop pat.length
    else
      a :: replaceFirstL pat rep t

/-- One item of a compiled `re.sub` replacement template: a literal character,
or a reference to group 0 (the whole match). -/
inductive ReplItem where
  | lit (c : Char)
  | group0
deriving DecidableEq

/-- Render a compiled replacement template against the matched slice. -/
def renderTemplate (items : List ReplItem) (matched : List Char) : List Char :=
  items.flatMap fun it =>
    match it with
    | .lit c => [c]
    | .group0 => matched

/-- Is `c` an ASCII letter? -/
def isAsciiLetter (c : Char) : Bool :=
  (65 ≤ c.toNat && c.toNat ≤ 90) || (97 ≤ c.toNat && c.toNat ≤ 122)

/-- Is `c` an octal digit? -/
def isOctal (c : Char) : Bool := 48 ≤ c.toNat && c.toNat ≤ 55

/-- Model of CPython `re` replacement-template compilation for a pattern with
zero capture groups (the patterns here come from `re.escape`). Known escapes
become literals, group references other than `g<0>` are errors because the
pattern has no groups, and an unknown ASCII-letter escape such as backslash-d
raises `re.error: bad escape` — this is the raise C2 is about. -/
def parseTemplateF : Nat → List Char → Except Unit (List ReplItem)
  | _, [] => .ok []
  | 0, _ => .ok []
  | f + 1, '\\' :: rest =>
    match rest with
    | [] => .error ()
    | c :: rest2 =>
      if c = '\\' then (parseTemplateF f rest2).map (fun l => .lit '\\' :: l)
      else if c = 'a' then (parseTemplateF f rest2).map (fun l => .lit '\x07' :: l)
      else if c = 'b' then (parseTemplateF f rest2).map (fun l => .lit '\x08' :: l)
      else if c = 'f' then (parseTemplateF f rest2).map (fun l => .lit '\x0c' :: l)
      else if c = 'n' then (parseTemplateF f rest2).map (fun l => .lit '\n' :: l)
      else if c = 'r' then (parseTemplateF f rest2).map (fun l => .lit '\x0d' :: l)
      else if c = 't' then (parseTemplateF f rest2).map (fun l => .lit '\t' :: l)
      else if c = 'v' then (parseTemplateF f rest2).map (fun l => .lit '\x0b' :: l)
      else if c = 'g' then
        match rest2 with
        | '<' :: '0' :: '>' :: rest3 => (parseTemplateF f rest3).map (fun l => .group0 :: l)
        | _ => .error ()
      else if c = '0' then
        match rest2 with
        | d1 :: d2 :: rest3 =>
          if isOctal d1 ∧ isOctal d2 then
            (parseTemplateF f rest3).map
              (fun l => .lit (Char.ofNat ((d1.toNat - 48) * 8 + (d2.toNat - 48))) :: l)
          else if isOctal d1 then
            (parseTemplateF f (d2 :: rest3)).map (fun l => .lit (Char.ofNat (d1.toNat - 48)) :: l)
          else (parseTemplateF f rest2).map (fun l => .lit '\x00' :: l)
        | [d1] =>
          if isOctal d1 then
            (parseTemplateF f []).map (fun l => .lit (Char.ofNat (d1.toNat - 48)) :: l)
          else (parseTemplateF f rest2).map (fun l => .lit '\x00' :: l)
        | [] => .ok [.lit '\x00']
      else if c.isDigit then .error ()
      else if isAsciiLetter c then .error ()
      else (parseTemplateF f rest2).map (fun l => .lit '\\' :: .lit c :: l)
  | f + 1, c :: rest => (parseTemplateF f rest).map (fun l => .lit c :: l)

/-- Compile a replacement template (fuel instantiated with the length, which
always suffices because every step consumes at least one character). -/
def parseTemplate (s : List Char) : Except Unit (List ReplItem) :=
  parseTemplateF s.length s

/-- Fuel-driven worker for the case-insensitive literal substitution performed
by `re.sub(re.escape(pat), tmpl, s, flags=IGNORECASE)` (ASCII case model). -/
def ciReplaceAllF (pat : List Char) (items : List ReplItem) : Nat → List Char → List Char
  | _, [] => []
  | 0, s => s
  | f + 1, a :: t =>
    if pat ≠ [] ∧ (lowerL pat).isPrefixOf (lowerL (a :: t)) then
      renderTemplate items ((a :: t).take pat.length) ++
        ciReplaceAllF pat items f (t.drop (pat.length - 1))
    else
      a :: ciReplaceAllF pat items f t

/-- Case-insensitive replace-all of an escaped literal pattern. -/
def ciReplaceAll (pat : List Char) (items : List ReplItem) (s : List Char) : List Char :=
  ciReplaceAllF pat items s.length s

/-- Case-insensitive replace of the first occurrence only (`count=1`). -/
def ciReplaceFirst (pat : List Char) (items : List ReplItem) : List Char → List Char
  | [] => []
  | a :: t =>
    if pat ≠ [] ∧ (lowerL pat).isPrefixOf (lowerL (a :: t)) then
      renderTemplate items ((a :: t).take pat.length) ++ (a :: t).drop pat.length
    else
      a :: ciReplaceFirst pat items t

/-- Python `s.replace(a, b, k)` for single characters: replace at most `k`
occurrences, left to right. -/
def replaceLimited : Nat → Char → Char → List Char → List Char
  | _, _, _, [] => []
  | 0, _, _, s => s
  | k + 1, a, b, c :: t =>
    if c = a then b :: replaceLimited k a b t else c :: replaceLimited (k + 1) a b t

/-- Index of the last occurrence of `c`, as in Python `str.rfind`. -/
def lastIdxOf (c : Char) : List Char → Option Nat
  | [] => none
  | a :: t =>
    match lastIdxOf c t with
    | some k => some (k + 1)
    | none => if a = c then some 0 else none

/-- Model of `os.path.splitext` on a plain file name (no path separators):
split at the last dot, unless every character before it is a dot. -/
def splitext (p : List Char) : List Char × List Char :=
  match lastIdxOf ('.') p with
  | none => (p, [])
  | some k => if (p.take k).any (fun c => c ≠ '.') then (p.take k, p.drop k) else (p, [])

/-- Lowercase only the extension: `name + ext.lower()` after `splitext`. -/
def lowerExt (p : List Char) : List Char :=
  (splitext p).1 ++ lowerL (splitext p).2

/-- Python `str.zfill`: left-pad with zeros to the requested width
(the numbers here are non-negative, so no sign handling is required). -/
def zfill (w : Nat) (s : List Char) : List Char :=
  if s.length < w then List.replicate (w - s.length) '0' ++ s else s

/-- Decimal digits of a natural number, as in Python `str(n)`. -/
def natToChars (n : Nat) : List Char := Nat.toDigits 10 n

/-- Python `str` of an integer. -/
def intToChars (n : Int) : List Char :=
  if n < 0 then '-' :: natToChars n.natAbs else natToChars n.natAbs

/-- Fuel-driven worker collapsing runs of underscores (`re.sub` of one-or-more
underscores to a single underscore). -/
def collapseUsF : Nat → List Char → List Char
  | _, [] => []
  | 0, s => s
  | f + 1, c :: t =>
    if c = '_' then '_' :: collapseUsF f (t.dropWhile (fun d => d = '_'))
    else c :: collapseUsF f t

/-- Collapse repeated underscores into one. -/
def collapseUs (s : List Char) : List Char := collapseUsF s.length s

/-- Model of `re.sub` of caret-underscore-or-underscore-dollar with empty
replacement: drop one leading underscore and one trailing underscore. -/
def trimUnd (s : List Char) : List Char :=
  let s1 := if s.head? = some '_' then s.tail else s
  if s1.getLast? = some '_' then s1.dropLast else s1

/-- Fuel-driven worker collapsing whitespace runs to one space
(`re.sub` of one-or-more whitespace to a single space). -/
def collapseWsF : Nat → List Char → List Char
  | _, [] => []
  | 0, s => s
  | f + 1, c :: t =>
    if isWs c then ' ' :: collapseWsF f (t.dropWhile (fun d => isWs d))
    else c :: collapseWsF f t

/-- Collapse whitespace runs to single spaces. -/
def collapseWs (s : List Char) : List Char := collapseWsF s.length s

/-- Python `str.strip()` (ASCII whitespace model). -/
def stripWs (s : List Char) : List Char :=
  ((s.dropWhile (fun c => isWs c)).reverse.dropWhile (fun c => isWs c)).reverse

/-! ## Rule engine (src/rules_engine.py)

The Python rules dictionary is modelled as a structure of `Option` fields;
`rules.get(key, default)` becomes `Option.getD`, so an absent key is `none`. -/

/-- The rules dictionary of `RulesEngine`, typed per the keys the engine reads. -/
structure Rules where
  enable_replace : Option Bool := none
  replace_from : Option (List Char) := none
  replace_to : Option (List Char) := none
  case_sensitive : Option Bool := none
  replace_all : Option Bool := none
  enable_prefix_suffix : Option Bool := none
  prefixVal : Option (List Char) := none
  suffixVal : Option (List Char) := none
  suffix_before_ext : Option Bool := none
  enable_numbering : Option Bool := none
  start_number : Option Nat := none
  digits_count : Option Nat := none
  number_separator : Option (List Char) := none
  number_position : Option (List Char) := none
  enable_regex : Option Bool := none
  regex_pattern : Option (List Char) := none
  regex_replacement : Option (List Char) := none
  regex_ignore_case : Option Bool := none
  regex_dotall : Option Bool := none
  remove_spaces : Option Bool := none
  lowercase_ext : Option Bool := none
deriving DecidableEq

/-- The empty rules dictionary. -/
def emptyRules : Rules := {}

/-- An uninterpreted regex-substitution primitive standing for `re.sub` with a
user pattern (pattern, replacement, input, ignorecase flag, dotall flag);
`none` models the call raising. The claims only exercise configurations with
`enable_regex` unset, so every theorem quantifies over this parameter. -/
def ReSub : Type := List Char → List Char → List Char → Bool → Bool → Option (List Char)

namespace RulesEngine

/-- `RulesEngine.apply_text_replace`. The case-insensitive branch compiles the
`re.sub` replacement template with no surrounding try/except, so a bad escape
in `replace_to` raises (modelled as `Except.error`). -/
def apply_text_replace (file_name : List Char) (rules : Rules) : Except Unit (List Char) :=
  if ¬ (rules.enable_replace.getD false) then .ok file_name
  else
    let replace_from := rules.replace_from.getD []
    let replace_to := rules.replace_to.getD []
    if replace_from = [] then .ok file_name
    else
      let replace_all := rules.replace_all.getD true
      if rules.case_sensitive.getD false then
        .ok (if replace_all then replaceAll replace_from replace_to file_name
             else replaceFirstL replace_from replace_to file_name)
      else
        match parseTemplate replace_to with
        | .error e => .error e
        | .ok items =>
          .ok (if replace_all then ciReplaceAll replace_from items file_name
               else ciReplaceFirst replace_from items file_name)

/-- `RulesEngine.apply_prefix_suffix`. -/
def apply_prefix_suffix (file_name : List Char) (rules : Rules) : List Char :=
  if ¬ (rules.enable_prefix_suffix.getD false) then file_name
  else
    let p := rules.prefixVal.getD []
    let s := rules.suffixVal.getD []
    let r1 := if p ≠ [] then p ++ file_name else file_name
    if s ≠ [] then
      if rules.suffix_before_ext.getD true then (splitext r1).1 ++ s ++ (splitext r1).2
      else r1 ++ s
    else r1

/-- `RulesEngine.apply_numbering`. -/
def apply_numbering (file_name : List Char) (index : Nat) (rules : Rules) : List Char :=
  if ¬ (rules.enable_numbering.getD false) then file_name
  else
    let start_number := rules.start_number.getD 1
    let digits_count := rules.digits_count.getD 3
    let separator := rules.number_separator.getD ['_']
    let number_position := rules.number_position.getD (("suffix").data)
    let number := zfill digits_count (natToChars (start_number + index))
    if number_position = ("prefix").data then number ++ separator ++ file_name
    else (splitext file_name).1 ++ separator ++ number ++ (splitext file_name).2

/-- `RulesEngine.apply_regex`: the whole regex application sits in a
try/except that returns the input name on any error (`none` from `resub`). -/
def apply_regex (resub : ReSub) (file_name : List Char) (rules : Rules) : List Char :=
  if ¬ (rules.enable_regex.getD false) then file_name
  else
    let pat := rules.regex_pattern.getD []
    if pat = [] then file_name
    else
      match resub pat (rules.regex_replacement.getD []) file_name
          (rules.regex_ignore_case.getD false) (rules.regex_dotall.getD false) with
      | some r => r
      | none => file_name

/-- `RulesEngine.apply_extension_processing`. -/
def apply_extension_processing (file_name : List Char) (rules : Rules) : List Char :=
  let r1 := if rules.remove_spaces.getD false then file_name.filter (fun c => c ≠ ' ') else file_name
  if rules.lowercase_ext.getD true then lowerExt r1 else r1

/-- `RulesEngine.generate_new_name`: the fixed pipeline — space removal, text
replace, regex, prefix/suffix, numbering, extension lowercasing. An exception
escaping `apply_text_replace` propagates to the caller. -/
def generate_new_name (resub : ReSub) (file_name : List Char) (index : Nat)
    (rules : Rules) : Except Unit (List Char) :=
  let r0 := if rules.remove_spaces.getD false then file_name.filter (fun c => c ≠ ' ') else file_name
  match apply_text_replace r0 rules with
  | .error e => .error e
  | .ok r1 =>
    let r2 := apply_regex resub r1 rules
    let r3 := apply_prefix_suffix r2 rules
    let r4 := apply_numbering r3 index rules
    .ok (if rules.lowercase_ext.getD true then lowerExt r4 else r4)

end RulesEngine

/-- The configuration enabling only extension lowercasing. -/
def cfgLowerOnly : Rules := { lowercase_ext := some true }

/-- The rules dictionary of C2's failing input: case-insensitive text replace
whose replacement string is backslash-d. -/
def badRules : Rules :=
  { enable_replace := some true, replace_from := some (("a").data),
    replace_to := some (("\\d").data) }

/-- The numbering configuration of spec Scenario 2. -/
def cfgScenario : Rules :=
  { enable_numbering := some true, start_number := some 1, digits_count := some 3,
    number_position := some (("suffix").data), number_separator := some (("_").data) }

/-- Scenario 2's configuration with extension lowercasing switched off, to
isolate the numbering step. -/
def cfgScenarioLF : Rules := { cfgScenario with lowercase_ext := some false }

/-! ## Digit formatting and parsing helpers (Python `%0Nd` and digit scans) -/

/-- Two zero-padded decimal digits (`%02d` for values below 100). -/
def pad2 (n : Nat) : List Char := [Nat.digitChar (n / 10 % 10), Nat.digitChar (n % 10)]

/-- Four zero-padded decimal digits (`%04d` for values below 10000). -/
def pad4 (n : Nat) : List Char :=
  [Nat.digitChar (n / 1000 % 10), Nat.digitChar (n / 100 % 10),
   Nat.digitChar (n / 10 % 10), Nat.digitChar (n % 10)]

/-- Six zero-padded decimal digits (`%06d` for values below 1000000). -/
def pad6 (n : Nat) : List Char :=
  [Nat.digitChar (n / 100000 % 10), Nat.digitChar (n / 10000 % 10),
   Nat.digitChar (n / 1000 % 10), Nat.digitChar (n / 100 % 10),
   Nat.digitChar (n / 10 % 10), Nat.digitChar (n % 10)]

/-- Read exactly `k` decimal digits, accumulating their value. -/
def readDigitsAux : Nat → Nat → List Char → Option (Nat × List Char)
  | 0, acc, s => some (acc, s)
  | _ + 1, _, [] => none
  | k + 1, acc, c :: t =>
    if c.isDigit then readDigitsAux k (acc * 10 + (c.toNat - 48)) t else none

/-- Consume one expected character. -/
def expectChar (c : Char) : List Char → Option (List Char)
  | [] => none
  | a :: t => if a = c then some t else none

/-- Python `int(str)` on a possibly signed decimal string. -/
def pyParseInt (st : List Char) : Option Int :=
  let dv : List Char → Nat := fun ds => ds.foldl (fun a c => a * 10 + (c.toNat - 48)) 0
  match stripWs st with
  | '-' :: ds => if ds ≠ [] ∧ ds.all (fun c => c.isDigit) then some (-(dv ds : Int)) else none
  | '+' :: ds => if ds ≠ [] ∧ ds.all (fun c => c.isDigit) then some (dv ds : Int) else none
  | ds => if ds ≠ [] ∧ ds.all (fun c => c.isDigit) then some (dv ds : Int) else none

/-! ## Datetime model (Python `datetime`) -/

/-- A naive Python `datetime` value. -/
structure PyDatetime where
  year : Nat
  month : Nat
  day : Nat
  hour : Nat
  minute : Nat
  second : Nat
  microsecond : Nat
deriving DecidableEq

/-- Gregorian leap-year rule. -/
def isLeapYear (y : Nat) : Bool := y % 4 = 0 && (y % 100 ≠ 0 || y % 400 = 0)

/-- Days in a month of a given year. -/
def daysInMonth (y m : Nat) : Nat :=
  if m = 2 then (if isLeapYear y then 29 else 28)
  else if m = 4 ∨ m = 6 ∨ m = 9 ∨ m = 11 then 30
  else 31

/-- The `datetime` constructor's field validation, as a boolean. -/
def validDTb (d : PyDatetime) : Bool :=
  decide (1 ≤ d.year ∧ d.year ≤ 9999 ∧ 1 ≤ d.month ∧ d.month ≤ 12 ∧
    1 ≤ d.day ∧ d.day ≤ daysInMonth d.year d.month ∧
    d.hour ≤ 23 ∧ d.minute ≤ 59 ∧ d.second ≤ 59 ∧ d.microsecond ≤ 999999)

/-- `datetime.isoformat()`: date, `T`, time, and the microsecond part only
when the microsecond is nonzero. -/
def isoformat (d : PyDatetime) : List Char :=
  pad4 d.year ++ ('-') :: pad2 d.month ++ ('-') :: pad2 d.day ++
  ('T') :: pad2 d.hour ++ (':') :: pad2 d.minute ++ (':') :: pad2 d.second ++
  (if d.microsecond = 0 then [] else ('.') :: pad6 d.microsecond)

/-- Read a two-digit field preceded by an expected separator character. -/
def readSep2 (c : Char) (r : List Char) : Option (Nat × List Char) :=
  match expectChar c r with
  | none => none
  | some r2 => readDigitsAux 2 0 r2

/-- `datetime.fromisoformat` restricted to the grammar `isoformat` emits
(any other shape yields `none`, standing for the `ValueError` raise). -/
def fromIso (s : List Char) : Option PyDatetime :=
  match readDigitsAux 4 0 s with
  | none => none
  | some (y, r1) =>
    match readSep2 ('-') r1 with
    | none => none
    | some (mo, r3) =>
      match readSep2 ('-') r3 with
      | none => none
      | some (dy, r5) =>
        match readSep2 ('T') r5 with
        | none => none
        | some (h, r7) =>
          match readSep2 (':') r7 with
          | none => none
          | some (mi, r9) =>
            match readSep2 (':') r9 with
            | none => none
            | some (se, r11) =>
              match (match r11 with
                     | [] => some (0, ([] : List Char))
                     | '.' :: t => readDigitsAux 6 0 t
                     | _ => none) with
              | none => none
              | some (us, r12) =>
                if r12 = [] ∧ validDTb ⟨y, mo, dy, h, mi, se, us⟩ then
                  some ⟨y, mo, dy, h, mi, se, us⟩
                else none

/-- `datetime.strptime(s, "%Y:%m:%d %H:%M:%S")` on the EXIF date format,
including the constructor's calendar validation. -/
def parseExifDT (s : List Char) : Option PyDatetime :=
  match readDigitsAux 4 0 s with
  | none => none
  | some (y, r1) =>
    match readSep2 (':') r1 with
    | none => none
    | some (mo, r3) =>
      match readSep2 (':') r3 with
      | none => none
      | some (dy, r5) =>
        match readSep2 (' ') r5 with
        | none => none
        | some (h, r7) =>
          match readSep2 (':') r7 with
          | none => none
          | some (mi, r9) =>
            match readSep2 (':') r9 with
            | none => none
            | some (se, r11) =>
              if r11 = [] ∧ validDTb ⟨y, mo, dy, h, mi, se, 0⟩ then
                some ⟨y, mo, dy, h, mi, se, 0⟩
              else none

/-! ## Exact-rational helpers standing in for Python float arithmetic -/

/-- Round half to even, the rounding Python's float formatting applies,
here on exact rationals. -/
def rhe (q : ℚ) : Int :=
  let f := ⌊q⌋
  let r := q - (f : ℚ)
  if r < 1 / 2 then f
  else if 1 / 2 < r then f + 1
  else if f % 2 = 0 then f else f + 1

/-- Python `int()` truncation toward zero, on exact rationals. -/
def ratTrunc (q : ℚ) : Int := if q < 0 then -⌊-q⌋ else ⌊q⌋

/-- Python `f"…:.1f"` formatting of an exact rational. -/
def fmt1 (q : ℚ) : List Char :=
  let k := rhe (10 * q)
  let a := k.natAbs
  (if k < 0 then [('-')] else []) ++ natToChars (a / 10) ++ ('.') :: [Nat.digitChar (a % 10)]

/-! ## EXIF processor (src/exif_processor.py)

`get_all_exif_data` reads the disk through PIL; the decoded tag map it
returns is modelled directly as the structure `ExifData` below, and
`generate_filename_from_exif` takes that map in place of the file path. -/

/-- A decoded EXIF tag value: integer, rational pair, or text.
(GPS sub-dictionaries are not representable here; the only branch that
inspects them, `GPSInfo` in `format_exif_value`, falls back to `str(value)`
for every non-dict value, which is what the model does.) -/
inductive EVal where
  | i (n : Int)
  | tup (a b : Int)
  | s (st : List Char)
deriving DecidableEq

/-- The decoded EXIF map, typed by the tags the processor reads; any other
present tag only matters for the map's emptiness and is tracked by name. -/
structure ExifData where
  dateTimeOriginal : Option (List Char) := none
  dateTimeDigitized : Option (List Char) := none
  dateTime : Option (List Char) := none
  model : Option (List Char) := none
  make : Option (List Char) := none
  lensModel : Option (List Char) := none
  focalLength : Option EVal := none
  fNumber : Option EVal := none
  exposureTime : Option EVal := none
  isoSpeedRatings : Option Int := none
  imageWidth : Option Int := none
  imageHeight : Option Int := none
  orientation : Option Int := none
  artist : Option (List Char) := none
  copyright : Option (List Char) := none
  software : Option (List Char) := none
  otherTags : List (List Char) := []
deriving DecidableEq

/-- Python truthiness test `if not exif_data` on the decoded map. -/
def isEmptyExif (e : ExifData) : Bool :=
  e.dateTimeOriginal.isNone && e.dateTimeDigitized.isNone && e.dateTime.isNone &&
  e.model.isNone && e.make.isNone && e.lensModel.isNone &&
  e.focalLength.isNone && e.fNumber.isNone && e.exposureTime.isNone &&
  e.isoSpeedRatings.isNone && e.imageWidth.isNone && e.imageHeight.isNone &&
  e.orientation.isNone && e.artist.isNone && e.copyright.isNone &&
  e.software.isNone && e.otherTags.isEmpty

namespace EXIFProcessor

/-- The names inside the supported placeholders, in the source dictionary's
insertion order (`model` is documented last, as a synonym of `camera`). -/
def placeholderNames : List (List Char) :=
  [("date").data, ("time").data, ("datetime").data, ("camera").data, ("make").data,
   ("lens").data, ("focal").data, ("aperture").data, ("shutter").data, ("iso").data,
   ("width").data, ("height").data, ("orientation").data, ("artist").data,
   ("copyright").data, ("software").data, ("model").data]

/-- Wrap a name in curly braces, forming a placeholder token. -/
def wrapPh (nm : List Char) : List Char := lbrace :: nm ++ [rbrace]

/-- `EXIFProcessor.PLACEHOLDERS`: the supported placeholder tokens, in
source order. -/
def PLACEHOLDERS : List (List Char) := placeholderNames.map wrapPh

/-- `EXIFProcessor.clean_for_filename`: drop filesystem-forbidden characters,
collapse whitespace runs to single spaces, strip. -/
def clean_for_filename (t : List Char) : List Char :=
  stripWs (collapseWs (t.filter (fun c =>
    ¬ (c = '<' ∨ c = '>' ∨ c = ':' ∨ c = '"' ∨ c = '/' ∨ c = '\\' ∨ c = '|' ∨ c = '?' ∨ c = '*'))))

/-- `EXIFProcessor.get_creation_datetime`: try the three date fields in
priority order; a present field that fails to parse falls through to the
next. Returns the formatted date part and time part. -/
def creationDatetime (e : ExifData) : Option (List Char × List Char) :=
  let fmt : PyDatetime → List Char × List Char := fun dt =>
    (pad4 dt.year ++ ('-') :: pad2 dt.month ++ ('-') :: pad2 dt.day,
     pad2 dt.hour ++ ('-') :: pad2 dt.minute)
  let tryField : Option (List Char) → Option PyDatetime := fun o =>
    match o with
    | none => none
    | some s => parseExifDT s
  match tryField e.dateTimeOriginal with
  | some dt => some (fmt dt)
  | none =>
    match tryField e.dateTimeDigitized with
    | some dt => some (fmt dt)
    | none =>
      match tryField e.dateTime with
      | some dt => some (fmt dt)
      | none => none

/-- The focal placeholder value: `str(int(value))` on the quotient, empty on
any conversion error (including zero denominators). -/
def focalValue : Option EVal → List Char
  | none => []
  | some (.tup a b) => if b = 0 then [] else intToChars (ratTrunc ((a : ℚ) / (b : ℚ)))
  | some (.i n) => intToChars n
  | some (.s st) =>
    match pyParseInt st with
    | some n => intToChars n
    | none => []

/-- The aperture placeholder value: one-decimal quotient for rationals,
`str(float(value))` otherwise, empty on conversion errors. -/
def apertureValue : Option EVal → List Char
  | none => []
  | some (.tup a b) => if b = 0 then [] else fmt1 ((a : ℚ) / (b : ℚ))
  | some (.i n) => intToChars n ++ (".0").data
  | some (.s st) =>
    match pyParseInt st with
    | some n => intToChars n ++ (".0").data
    | none => []

/-- The shutter placeholder value: integer reciprocal below one second,
zero-decimals value otherwise; `str(value)` for non-rationals. -/
def shutterValue : Option EVal → List Char
  | none => []
  | some (.tup a b) =>
    if b = 0 then []
    else
      let q := (a : ℚ) / (b : ℚ)
      if q < 1 then (if a = 0 then [] else intToChars (ratTrunc (1 / q)))
      else intToChars (rhe q)
  | some (.i n) => intToChars n
  | some (.s st) => st

/-- `str(value)` for tags read with an `is not None` presence test. -/
def optIntValue : Option Int → List Char
  | some n => intToChars n
  | none => []

/-- Cleaned value for the truthiness-tested text tags (artist, copyright,
software): empty when absent or empty. -/
def optCleanValue : Option (List Char) → List Char
  | some st => if st ≠ [] then clean_for_filename st else []
  | none => []

/-- `EXIFProcessor.extract_values_for_template`: the ordered placeholder
table, keys inserted exactly in source order. -/
def extract_values (e : ExifData) : List (List Char × List Char) :=
  (match creationDatetime e with
   | some (d, t) =>
     [(wrapPh (("date").data), d), (wrapPh (("time").data), t),
      (wrapPh (("datetime").data), d ++ ('_') :: t)]
   | none => []) ++
  (let cm := e.model.getD []
   if cm ≠ [] then
     [(wrapPh (("camera").data), clean_for_filename cm),
      (wrapPh (("model").data), clean_for_filename cm)]
   else []) ++
  (let mk := e.make.getD []
   if mk ≠ [] then [(wrapPh (("make").data), clean_for_filename mk)] else []) ++
  (let ln := e.lensModel.getD []
   if ln ≠ [] then [(wrapPh (("lens").data), clean_for_filename ln)] else []) ++
  [(wrapPh (("focal").data), focalValue e.focalLength),
   (wrapPh (("aperture").data), apertureValue e.fNumber),
   (wrapPh (("shutter").data), shutterValue e.exposureTime),
   (wrapPh (("iso").data), optIntValue e.isoSpeedRatings),
   (wrapPh (("width").data), optIntValue e.imageWidth),
   (wrapPh (("height").data), optIntValue e.imageHeight),
   (wrapPh (("orientation").data), optIntValue e.orientation),
   (wrapPh (("artist").data), optCleanValue e.artist),
   (wrapPh (("copyright").data), optCleanValue e.copyright),
   (wrapPh (("software").data), optCleanValue e.software)]

/-- `EXIFProcessor.generate_filename_from_exif`, parameterized by the decoded
EXIF map in place of the file path: substitute non-empty placeholder values,
delete the supported placeholders that remain, collapse and trim underscores,
fall back to the original name when the residue is empty or separators only,
and re-append the original extension. -/
def generate_filename_from_exif (e : ExifData) (file_name template : List Char) : List Char :=
  if isEmptyExif e then file_name
  else
    let values := extract_values e
    let r1 := values.foldl (fun acc pv => if pv.2 ≠ [] then replaceAll pv.1 pv.2 acc else acc) template
    let r2 := PLACEHOLDERS.foldl (fun acc p => replaceAll p [] acc) r1
    let r3 := trimUnd (collapseUs r2)
    if r3 = [] ∨ r3.filter (fun c => ¬ (c = '_' ∨ c = '-')) = [] then file_name
    else r3 ++ (splitext file_name).2

/-- `EXIFProcessor.validate_template`. -/
def validate_template (t : List Char) : Bool × List Char :=
  if t = [] then (false, ("Шаблон не может быть пустым").data)
  else
    let hasValid := PLACEHOLDERS.any (fun p => occursSub p t)
    if ¬ hasValid ∧ lbrace ∈ t then
      if t.count lbrace ≠ t.count rbrace then
        (false, ("Непарные фигурные скобки в шаблоне").data)
      else (false, ("Неизвестный плейсхолдер в шаблоне").data)
    else (true, ("OK").data)

/-- Python `str(value)` on a tag value. -/
def pyStr : EVal → List Char
  | .i n => intToChars n
  | .tup a b => ('(') :: (intToChars a ++ (", ").data ++ intToChars b ++ [(')')] )
  | .s st => st

/-- `EXIFProcessor._format_flash`: decode the flash bitmask. -/
def formatFlash : EVal → List Char
  | .i n =>
    let l : List (List Char) :=
      (if n.toNat.testBit 0 then [("Сработала").data] else []) ++
      (if n.toNat.testBit 5 then [("Подавление красных глаз").data] else []) ++
      (if n.toNat.testBit 6 then [("Авто режим").data] else [])
    if l = [] then ("Не сработала").data else List.intercalate ((", ").data) l
  | v => pyStr v

/-- The orientation lookup table with its raw-code fallback. -/
def orientationName (n : Int) (fallback : List Char) : List Char :=
  if n = 1 then ("Нормальная").data
  else if n = 2 then ("Отзеркалена горизонтально").data
  else if n = 3 then ("Повернута на 180°").data
  else if n = 4 then ("Отзеркалена вертикально").data
  else if n = 5 then ("Повернута на 90° + отзеркалена").data
  else if n = 6 then ("Повернута на 90°").data
  else if n = 7 then ("Повернута на -90° + отзеркалена").data
  else if n = 8 then ("Повернута на -90°").data
  else ("Код: ").data ++ fallback

/-- The color-space lookup table with its `str(value)` fallback. -/
def colorSpaceName (n : Int) (fallback : List Char) : List Char :=
  if n = 1 then ("sRGB").data
  else if n = 2 then ("Adobe RGB").data
  else if n = 65535 then ("Uncalibrated").data
  else fallback

/-- `EXIFProcessor.format_exif_value`: the per-tag display formatting
dispatch (`None` displays as `N/A`). -/
def format_exif_value (tag : List Char) (value : Option EVal) : List Char :=
  match value with
  | none => ("N/A").data
  | some v =>
    if tag = ("DateTime").data ∨ tag = ("DateTimeOriginal").data ∨
        tag = ("DateTimeDigitized").data then
      match v with
      | .s st => replaceLimited 2 (':') ('-') st
      | _ => pyStr v
    else if tag = ("FNumber").data then
      match v with
      | .tup a b => if b = 0 then pyStr v else ("f/").data ++ fmt1 ((a : ℚ) / (b : ℚ))
      | .i n => ("f/").data ++ fmt1 ((n : ℚ))
      | _ => pyStr v
    else if tag = ("ExposureTime").data then
      match v with
      | .tup a b =>
        if b = 0 then pyStr v
        else
          let q := (a : ℚ) / (b : ℚ)
          if q < 1 then
            (if a = 0 then pyStr v else ('1') :: ('/') :: intToChars (ratTrunc (1 / q)))
          else fmt1 q
      | _ => pyStr v
    else if tag = ("ISOSpeedRatings").data then ("ISO ").data ++ pyStr v
    else if tag = ("FocalLength").data then
      match v with
      | .tup a b =>
        if b = 0 then pyStr v else intToChars (ratTrunc ((a : ℚ) / (b : ℚ))) ++ ("mm").data
      | .i n => intToChars n ++ ("mm").data
      | _ => pyStr v
    else if tag = ("Flash").data then formatFlash v
    else if tag = ("Orientation").data then
      match v with
      | .i n => orientationName n (pyStr v)
      | .s st =>
        match pyParseInt st with
        | some n => orientationName n (pyStr v)
        | none => pyStr v
      | _ => pyStr v
    else if tag = ("ColorSpace").data then
      match v with
      | .i n => colorSpaceName n (pyStr v)
      | .s st =>
        match pyParseInt st with
        | some n => colorSpaceName n (pyStr v)
        | none => pyStr v
      | _ => pyStr v
    else if tag = ("GPSInfo").data then pyStr v
    else pyStr v

end EXIFProcessor

/-! ## Filesystem model

The filesystem is the list of existing file paths. `os.rename` during undo is
an oracle parameter (`Rn`): `none` models the call raising for reasons beyond
a missing source (permissions, locking), which is exactly the whole-batch
throw C3 distinguishes from a per-file missing target. -/

/-- The set of existing paths. -/
abbrev FS : Type := List (List Char)

/-- `os.path.join` for the folder/name shapes the manager produces. -/
def joinPath (folder name : List Char) : List Char :=
  if folder = [] then name
  else if name.head? = some ('/') then name
  else folder ++ ('/') :: name

/-- `os.path.dirname` (POSIX): everything before the last separator, with
trailing separators stripped unless the head is all separators. -/
def dirnameP (p : List Char) : List Char :=
  match lastIdxOf ('/') p with
  | none => []
  | some k =>
    let head := p.take (k + 1)
    if head ≠ [] ∧ head.any (fun c => c ≠ '/') then
      (head.reverse.dropWhile (fun c => c = '/')).reverse
    else head

/-- The rename oracle: given the filesystem and source/destination paths,
either the updated filesystem or `none` for a raise. -/
abbrev Rn : Type := FS → List Char → List Char → Option FS

/-! ## Undo manager (src/undo_manager.py) -/

/-- One recorded old/new pair of a rename batch. -/
structure Change where
  old : List Char
  new : List Char
deriving DecidableEq

/-- `RenameOperation`: one recorded batch. -/
structure RenameOperation where
  timestamp : PyDatetime
  folder_path : List Char
  changes : List Change
  operation_id : List Char
deriving DecidableEq

/-- The dictionary `RenameOperation.to_dict` produces (timestamp serialized
to its ISO string); this is also exactly what the JSON layer round-trips. -/
structure SavedOp where
  timestamp : List Char
  folder_path : List Char
  changes : List Change
  operation_id : List Char
deriving DecidableEq

namespace UndoManager

/-- `RenameOperation.to_dict`. -/
def toDict (op : RenameOperation) : SavedOp :=
  ⟨isoformat op.timestamp, op.folder_path, op.changes, op.operation_id⟩

/-- `RenameOperation.from_dict`; a timestamp that fails to parse raises,
modelled as `none`. -/
def fromDict (d : SavedOp) : Option RenameOperation :=
  (fromIso d.timestamp).map (fun ts => ⟨ts, d.folder_path, d.changes, d.operation_id⟩)

/-- `save_history`: the structured records written to the history file.
`json.dump`/`json.load` are the identity on these records (strings, lists
and string-keyed dicts round-trip exactly), so the file layer is elided. -/
def save_history (ops : List RenameOperation) : List SavedOp := ops.map toDict

/-- `load_history`: rebuild every operation in order; one failure aborts the
whole load (the list comprehension raises before `self.operations` is
assigned). -/
def load_history : List SavedOp → Option (List RenameOperation)
  | [] => some []
  | d :: rest =>
    match fromDict d with
    | none => none
    | some op =>
      match load_history rest with
      | none => none
      | some ops => some (op :: ops)

/-- The manager's mutable state: the recorded operations, most recent last. -/
structure UndoState where
  operations : List RenameOperation
deriving DecidableEq

/-- The per-file loop inside `undo_last_operation`: existing targets are
renamed back and counted, missing targets only bump the error count, and a
raise from the rename aborts the loop carrying the filesystem reached so far. -/
def undoChanges (rn : Rn) (folder : List Char) :
    List Change → FS → Nat → Nat → Except FS (FS × Nat × Nat)
  | [], fs, sc, ec => .ok (fs, sc, ec)
  | ch :: rest, fs, sc, ec =>
    let src := joinPath folder ch.new
    if src ∈ fs then
      match rn fs src (joinPath folder ch.old) with
      | some fs2 => undoChanges rn folder rest fs2 (sc + 1) ec
      | none => .error fs
    else undoChanges rn folder rest fs sc (ec + 1)

/-- `undo_last_operation`: pop the most recent operation, reverse-rename its
pairs, report success when at least one file renamed; on a whole-batch raise
push the operation back and report failure. -/
def undo_last_operation (rn : Rn) (st : UndoState) (fs : FS) : Bool × UndoState × FS :=
  match st.operations.getLast? with
  | none => (false, st, fs)
  | some op =>
    let rest := st.operations.dropLast
    match undoChanges rn op.folder_path op.changes fs 0 0 with
    | .ok (fs2, sc, _) => (decide (0 < sc), ⟨rest⟩, fs2)
    | .error fs2 => (false, ⟨rest ++ [op]⟩, fs2)

/-- Specification-side reading of the same loop: `none` is the whole-batch
throw; otherwise the final filesystem together with whether at least one
pair was reverse-renamed successfully. -/
def runUndo (rn : Rn) (folder : List Char) : List Change → FS → Option (FS × Bool)
  | [], fs => some (fs, false)
  | ch :: rest, fs =>
    let src := joinPath folder ch.new
    if src ∈ fs then
      match rn fs src (joinPath folder ch.old) with
      | some fs2 => (runUndo rn folder rest fs2).map (fun p => (p.1, true))
      | none => none
    else runUndo rn folder rest fs

end UndoManager

/-- A straightforward rename oracle for concrete witnesses: succeed exactly
when the source exists. -/
def rn0 : Rn := fun fs src dst => if src ∈ fs then some (dst :: fs.erase src) else none

/-- An identity regex oracle for concrete witnesses. -/
def rsId : ReSub := fun _ _ s _ _ => some s

/-! ## File manager (src/file_manager.py) -/

namespace FileManager

/-- `shutil.copy2` on the path set: raises (carrying the unchanged
filesystem) when the source is missing. -/
def copyFs (fs : FS) (src dst : List Char) : Except FS FS :=
  if src ∈ fs then .ok (if dst ∈ fs then fs else dst :: fs) else .error fs

/-- `os.rename` on the path set: raises when the source is missing. -/
def renameFs (fs : FS) (src dst : List Char) : Except FS FS :=
  if src ∈ fs then .ok (if dst = src then fs else dst :: fs.erase src) else .error fs

/-- `FileManager.rename_file`: refuse a name collision before any side
effect; otherwise optionally copy a `.backup` and rename, with the
surrounding try/except turning any raise into `False`. -/
def rename_file (fs : FS) (old_path new_name : List Char) (keep_original : Bool) :
    Bool × FS :=
  let folder := dirnameP old_path
  let new_path := joinPath folder new_name
  if new_path ∈ fs ∧ new_path ≠ old_path then (false, fs)
  else
    let run : Except FS FS := do
      let fs1 ← if keep_original then copyFs fs old_path (old_path ++ ((".backup").data)) else .ok fs
      renameFs fs1 old_path new_path
    match run with
    | .ok fs2 => (true, fs2)
    | .error fsE => (false, fsE)

end FileManager

/-! ## Helper lemmas: lists, replacement, `splitext`, lowercasing -/

theorem take_append_self (a b : List Char) : (a ++ b).take a.length = a := by
  induction a with
  | nil => rfl
  | cons x t ih => simp [List.take, ih]

theorem drop_append_self (a b : List Char) : (a ++ b).drop a.length = b := by
  induction a with
  | nil => rfl
  | cons x t ih => simp [List.drop, ih]

theorem replaceAllF_fuel (pat rep : List Char) :
    ∀ f1 f2 s, s.length ≤ f1 → s.length ≤ f2 →
    replaceAllF pat rep f1 s = replaceAllF pat rep f2 s := by
  intro f1
  induction f1 with
  | zero =>
    intro f2 s h1 _
    have hs : s = [] := List.eq_nil_of_length_eq_zero (Nat.le_zero.mp h1)
    subst hs
    cases f2 <;> rfl
  | succ g ih =>
    intro f2 s h1 h2
    cases s with
    | nil => cases f2 <;> rfl
    | cons a t =>
      cases f2 with
      | zero => simp at h2
      | succ g2 =>
        simp only [replaceAllF]
        by_cases hc : pat ≠ [] ∧ pat.isPrefixOf (a :: t)
        · rw [if_pos hc, if_pos hc]
          congr 1
          apply ih
          · have := List.length_drop (pat.length - 1) t
            simp only [List.length_cons] at h1
            omega
          · have := List.length_drop (pat.length - 1) t
            simp only [List.length_cons] at h2
            omega
        · rw [if_neg hc, if_neg hc]
          simp only [List.length_cons] at h1 h2
          rw [ih g2 t (by omega) (by omega)]

theorem replaceAll_cons (pat rep : List Char) (a : Char) (t : List Char) :
    replaceAll pat rep (a :: t) =
      if pat ≠ [] ∧ pat.isPrefixOf (a :: t) then
        rep ++ replaceAll pat rep (t.drop (pat.length - 1))
      else a :: replaceAll pat rep t := by
  show replaceAllF pat rep (t.length + 1) (a :: t) = _
  simp only [replaceAllF]
  by_cases hc : pat ≠ [] ∧ pat.isPrefixOf (a :: t)
  · rw [if_pos hc, if_pos hc]
    congr 1
    apply replaceAllF_fuel
    · have := List.length_drop (pat.length - 1) t
      omega
    · exact Nat.le_refl _
  · rw [if_neg hc, if_neg hc]; rfl

theorem replaceAll_of_not_occurs {pat : List Char} (rep : List Char) :
    ∀ s, occursSub pat s = false → replaceAll pat rep s = s := by
  intro s
  induction s with
  | nil => intro _; rfl
  | cons a t ih =>
    intro h
    simp only [occursSub, Bool.or_eq_false_iff] at h
    rw [replaceAll_cons, if_neg, ih h.2]
    intro hc
    rw [hc.2] at h
    exact absurd h.1 (by simp)

theorem mem_of_occursSub_cons {c : Char} {p : List Char} :
    ∀ l, occursSub (c :: p) l = true → c ∈ l := by
  intro l
  induction l with
  | nil => intro h; simp [occursSub, List.isPrefixOf] at h
  | cons a t ih =>
    intro h
    simp only [occursSub, Bool.or_eq_true] at h
    rcases h with h | h
    · simp only [List.isPrefixOf, Bool.and_eq_true, beq_iff_eq] at h
      exact h.1 ▸ List.mem_cons_self a t
    · exact List.mem_cons_of_mem a (ih h)

theorem occursSub_eq_false_of_head_not_mem {c : Char} {p l : List Char} (h : c ∉ l) :
    occursSub (c :: p) l = false := by
  cases hb : occursSub (c :: p) l
  · rfl
  · exact absurd (mem_of_occursSub_cons l hb) h

theorem lastIdxOf_eq_none_iff (c : Char) :
    ∀ l, lastIdxOf c l = none ↔ ∀ a ∈ l, a ≠ c := by
  intro l
  induction l with
  | nil => simp [lastIdxOf]
  | cons a t ih =>
    simp only [lastIdxOf]
    cases h : lastIdxOf c t with
    | some k =>
      constructor
      · intro hx; exact absurd hx (by simp)
      · intro hall
        exfalso
        have hn : lastIdxOf c t = none :=
          ih.mpr (fun x hx => hall x (List.mem_cons_of_mem a hx))
        rw [hn] at h
        exact absurd h (by simp)
    | none =>
      by_cases hac : a = c
      · rw [if_pos hac]
        constructor
        · intro hx; exact absurd hx (by simp)
        · intro hall; exact absurd hac (hall a (List.mem_cons_self a t))
      · rw [if_neg hac]
        constructor
        · intro _ x hx
          rcases List.mem_cons.mp hx with h1 | h1
          · exact h1 ▸ hac
          · exact (ih.mp h) x h1
        · intro _; rfl

theorem lastIdxOf_append_last (c : Char) (s r : List Char) (hr : ∀ a ∈ r, a ≠ c) :
    lastIdxOf c (s ++ c :: r) = some s.length := by
  induction s with
  | nil =>
    simp only [List.nil_append, lastIdxOf]
    rw [(lastIdxOf_eq_none_iff c r).mpr hr]
    simp
  | cons a t ih => simp [lastIdxOf, ih]

theorem lastIdxOf_spec (c : Char) :
    ∀ (p : List Char) (k : Nat), lastIdxOf c p = some k →
    ∃ s r, p = s ++ c :: r ∧ s.length = k ∧ ∀ a ∈ r, a ≠ c := by
  intro p
  induction p with
  | nil => intro k h; simp [lastIdxOf] at h
  | cons a t ih =>
    intro k h
    simp only [lastIdxOf] at h
    cases ht : lastIdxOf c t with
    | some j =>
      rw [ht] at h
      simp only [Option.some.injEq] at h
      obtain ⟨s, r, hp, hl, hr⟩ := ih j ht
      exact ⟨a :: s, r, by simp [hp], by simp [hl, ← h], hr⟩
    | none =>
      rw [ht] at h
      by_cases hac : a = c
      · rw [if_pos hac] at h
        simp only [Option.some.injEq] at h
        exact ⟨[], t, by simp [hac], by simp [← h], (lastIdxOf_eq_none_iff c t).mp ht⟩
      · rw [if_neg hac] at h
        exact absurd h (by simp)

theorem splitext_append (s r : List Char) (hs : s.any (fun c => c ≠ '.') = true)
    (hr : ∀ a ∈ r, a ≠ '.') :
    splitext (s ++ '.' :: r) = (s, '.' :: r) := by
  unfold splitext
  rw [lastIdxOf_append_last ('.') s r hr]
  dsimp only
  rw [take_append_self s ('.' :: r), drop_append_self s ('.' :: r), if_pos hs]

theorem splitext_eq (p : List Char) : (splitext p).1 ++ (splitext p).2 = p := by
  unfold splitext
  cases h : lastIdxOf ('.') p with
  | none => simp
  | some k =>
    dsimp only
    by_cases hc : (p.take k).any (fun c => c ≠ '.') = true
    · rw [if_pos hc]
      exact List.take_append_drop k p
    · rw [if_neg hc]
      simp

theorem splitext_snd_cases (p : List Char) :
    (splitext p).2 = [] ∨
    ∃ r, (splitext p).2 = '.' :: r ∧ (∀ a ∈ r, a ≠ '.') ∧
      (splitext p).1.any (fun c => c ≠ '.') = true := by
  unfold splitext
  cases h : lastIdxOf ('.') p with
  | none => left; rfl
  | some k =>
    dsimp only
    by_cases hc : (p.take k).any (fun c => c ≠ '.') = true
    · right
      rw [if_pos hc]
      obtain ⟨s, r, hp, hl, hr⟩ := lastIdxOf_spec ('.') p k h
      subst hl
      subst hp
      rw [take_append_self s ('.' :: r), drop_append_self s ('.' :: r)]
      rw [take_append_self s ('.' :: r)] at hc
      exact ⟨r, rfl, hr, hc⟩
    · left
      rw [if_neg hc]

theorem toLowerChar_idem (c : Char) : toLowerChar (toLowerChar c) = toLowerChar c := by
  unfold toLowerChar
  by_cases h : 65 ≤ c.toNat ∧ c.toNat ≤ 90
  · rw [if_pos h]
    obtain ⟨h1, h2⟩ := h
    set n := c.toNat with hn
    interval_cases n <;> decide
  · rw [if_neg h, if_neg h]

theorem toLowerChar_ne_dot {c : Char} (h : c ≠ '.') : toLowerChar c ≠ '.' := by
  unfold toLowerChar
  by_cases hb : 65 ≤ c.toNat ∧ c.toNat ≤ 90
  · rw [if_pos hb]
    obtain ⟨h1, h2⟩ := hb
    set n := c.toNat with hn
    interval_cases n <;> decide
  · rw [if_neg hb]; exact h

theorem lowerL_dot_free {r : List Char} (h : ∀ a ∈ r, a ≠ '.') :
    ∀ a ∈ lowerL r, a ≠ '.' := by
  intro a ha
  obtain ⟨b, hb, hba⟩ := List.mem_map.mp ha
  exact hba ▸ toLowerChar_ne_dot (h b hb)

theorem lowerL_idem (r : List Char) : lowerL (lowerL r) = lowerL r := by
  unfold lowerL
  rw [List.map_map]
  exact List.map_congr_left (fun c _ => toLowerChar_idem c)

theorem lowerExt_idem (p : List Char) : lowerExt (lowerExt p) = lowerExt p := by
  rcases splitext_snd_cases p with h | ⟨r, h, hr, hs⟩
  · have hp : lowerExt p = p := by
      unfold lowerExt
      rw [h]
      simp only [lowerL, List.map_nil, List.append_nil]
      conv_rhs => rw [← splitext_eq p, h]
      simp
    rw [hp]
    exact hp
  · have hdot2 : toLowerChar ('.') = ('.') := by decide
    have h1 : lowerExt p = (splitext p).1 ++ '.' :: lowerL r := by
      unfold lowerExt
      rw [h]
      simp only [lowerL, List.map_cons, hdot2]
    have h2 : splitext ((splitext p).1 ++ '.' :: lowerL r) = ((splitext p).1, '.' :: lowerL r) :=
      splitext_append _ _ hs (lowerL_dot_free hr)
    rw [h1]
    unfold lowerExt
    rw [h2]
    congr 1
    show lowerL ('.' :: lowerL r) = '.' :: lowerL r
    simp only [lowerL, List.map_cons, hdot2]
    congr 1
    exact lowerL_idem r

/-! ## Claim theorems -/

/-- C8: applying the Rule Engine twice with only extension lowercasing
enabled yields the same result as applying it once, for every file name and
every pair of indices. -/
theorem claim_C8 (resub : ReSub) (name : List Char) (i j : Nat) :
    (RulesEngine.generate_new_name resub name i cfgLowerOnly).bind
      (fun r => RulesEngine.generate_new_name resub r j cfgLowerOnly) =
    RulesEngine.generate_new_name resub name i cfgLowerOnly := by
  have h1 : ∀ (nm : List Char) (k : Nat),
      RulesEngine.generate_new_name resub nm k cfgLowerOnly = .ok (lowerExt nm) :=
    fun nm k => rfl
  rw [h1 name i]
  show RulesEngine.generate_new_name resub (lowerExt name) j cfgLowerOnly =
    Except.ok (lowerExt name)
  rw [h1 (lowerExt name) j, lowerExt_idem]

/-- C9: with a rules dictionary that omits every key (so `lowercase_ext`
defaults to enabled), `generate_new_name` still lowercases the extension, and
it is the identity exactly on names whose extension is already lowercase. -/
theorem claim_C9 (resub : ReSub) (name : List Char) (i : Nat) :
    RulesEngine.generate_new_name resub name i emptyRules =
      .ok ((splitext name).1 ++ lowerL (splitext name).2) ∧
    (RulesEngine.generate_new_name resub name i emptyRules = .ok name ↔
      lowerL (splitext name).2 = (splitext name).2) := by
  have h1 : RulesEngine.generate_new_name resub name i emptyRules = .ok (lowerExt name) := rfl
  refine ⟨h1, ?_⟩
  rw [h1]
  constructor
  · intro h
    have h2 : lowerExt name = name := by
      simpa using h
    unfold lowerExt at h2
    have h3 : (splitext name).1 ++ lowerL (splitext name).2 =
        (splitext name).1 ++ (splitext name).2 := by
      rw [h2, splitext_eq]
    exact List.append_cancel_left h3
  · intro h
    have h2 : lowerExt name = name := by
      unfold lowerExt
      rw [h, splitext_eq]
    rw [h2]

/-- C2: the claim that `generate_new_name` never raises fails — with
case-insensitive text replacement enabled and a replacement string containing
the escape backslash-d, the unprotected `re.sub` template compilation inside
`apply_text_replace` raises `re.error`, which propagates to the caller. -/
theorem claim_C2_eval (resub : ReSub) :
    RulesEngine.generate_new_name resub (("a.txt").data) 0 badRules = .error () := rfl

/-- C5: with numbering enabled and the other steps disabled,
`generate_new_name` inserts `start + index` zero-padded to the digit width,
as a prefix before everything or as a suffix before the extension, separated
by the separator; and Scenario 2 evaluates to `photo_003.jpg`. -/
theorem claim_C5 (resub : ReSub) :
    (∀ (name : List Char) (index : Nat) (r : Rules),
      r.remove_spaces.getD false = false →
      r.enable_replace.getD false = false →
      r.enable_regex.getD false = false →
      r.enable_prefix_suffix.getD false = false →
      r.enable_numbering.getD false = true →
      r.lowercase_ext.getD true = false →
      RulesEngine.generate_new_name resub name index r =
        .ok (if r.number_position.getD (("suffix").data) = ("prefix").data then
          zfill (r.digits_count.getD 3) (natToChars (r.start_number.getD 1 + index)) ++
            r.number_separator.getD ['_'] ++ name
        else
          (splitext name).1 ++ r.number_separator.getD ['_'] ++
            (zfill (r.digits_count.getD 3) (natToChars (r.start_number.getD 1 + index)) ++
              (splitext name).2))) ∧
    RulesEngine.generate_new_name resub (("photo.jpg").data) 2 cfgScenario =
      .ok (("photo_003.jpg").data) := by
  constructor
  · intro name index r h1 h2 h3 h4 h5 h6
    simp only [RulesEngine.generate_new_name, RulesEngine.apply_text_replace,
      RulesEngine.apply_regex, RulesEngine.apply_prefix_suffix,
      RulesEngine.apply_numbering, h1, h2, h3, h4, h5, h6]
    simp [List.append_assoc]
  · rfl

/-- C10: when the destination path already exists and differs from the
source, `rename_file` reports failure and leaves the filesystem untouched —
no backup copy and no rename happen on this collision. -/
theorem claim_C10 (fs : FS) (old_path new_name : List Char) (keep : Bool)
    (h1 : joinPath (dirnameP old_path) new_name ∈ fs)
    (h2 : joinPath (dirnameP old_path) new_name ≠ old_path) :
    FileManager.rename_file fs old_path new_name keep = (false, fs) := by
  unfold FileManager.rename_file
  dsimp only
  rw [if_pos ⟨h1, h2⟩]

/-- C10 witness: a concrete collision. -/
theorem claim_C10_witness :
    FileManager.rename_file [("d/b").data, ("d/a").data] (("d/a").data) (("b").data) false =
      (false, [("d/b").data, ("d/a").data]) :=
  claim_C10 [("d/b").data, ("d/a").data] (("d/a").data) (("b").data) false
    (by decide) (by decide)

/-- C5 witness: Scenario 2's numbering at a concrete configuration with the
lowercasing step switched off, through the first conjunct of the theorem. -/
theorem claim_C5_witness :
    RulesEngine.generate_new_name rsId (("photo.jpg").data) 2 cfgScenarioLF =
      .ok (("photo_003.jpg").data) :=
  ((claim_C5 rsId).1 (("photo.jpg").data) 2 cfgScenarioLF rfl rfl rfl rfl rfl rfl).trans
    (by rfl)

/-! ### C3: the undo loop -/

theorem undoChanges_of_runUndo_some (rn : Rn) (folder : List Char) :
    ∀ (changes : List Change) (fs fs2 : FS) (b : Bool) (sc ec : Nat),
    UndoManager.runUndo rn folder changes fs = some (fs2, b) →
    ∃ s e, UndoManager.undoChanges rn folder changes fs sc ec = .ok (fs2, sc + s, ec + e) ∧
      (b = true ↔ 0 < s) := by
  intro changes
  induction changes with
  | nil =>
    intro fs fs2 b sc ec h
    simp only [UndoManager.runUndo, Option.some.injEq, Prod.mk.injEq] at h
    refine ⟨0, 0, ?_, ?_⟩
    · simp [UndoManager.undoChanges, h.1]
    · simp [← h.2]
  | cons ch rest ih =>
    intro fs fs2 b sc ec h
    simp only [UndoManager.runUndo] at h
    simp only [UndoManager.undoChanges]
    by_cases hm : joinPath folder ch.new ∈ fs
    · rw [if_pos hm] at h ⊢
      cases hr : rn fs (joinPath folder ch.new) (joinPath folder ch.old) with
      | none => rw [hr] at h; simp at h
      | some g =>
        rw [hr] at h
        dsimp only at h ⊢
        rw [Option.map_eq_some'] at h
        obtain ⟨p, ho, hp⟩ := h
        simp only [Prod.mk.injEq] at hp
        obtain ⟨s, e, hu, _⟩ := ih g p.1 p.2 (sc + 1) ec (by rw [ho])
        refine ⟨s + 1, e, ?_, ?_⟩
        · rw [hu, hp.1]
          have harith : sc + 1 + s = sc + (s + 1) := by omega
          rw [harith]
        · simp [← hp.2]
    · rw [if_neg hm] at h ⊢
      obtain ⟨s, e, hu, hiff⟩ := ih fs fs2 b sc (ec + 1) h
      refine ⟨s, e + 1, ?_, hiff⟩
      rw [hu]
      have harith : ec + 1 + e = ec + (e + 1) := by omega
      rw [harith]

theorem undoChanges_of_runUndo_none (rn : Rn) (folder : List Char) :
    ∀ (changes : List Change) (fs : FS) (sc ec : Nat),
    UndoManager.runUndo rn folder changes fs = none →
    ∃ fsE, UndoManager.undoChanges rn folder changes fs sc ec = .error fsE := by
  intro changes
  induction changes with
  | nil => intro fs sc ec h; simp [UndoManager.runUndo] at h
  | cons ch rest ih =>
    intro fs sc ec h
    simp only [UndoManager.runUndo] at h
    simp only [UndoManager.undoChanges]
    by_cases hm : joinPath folder ch.new ∈ fs
    · rw [if_pos hm] at h ⊢
      cases hr : rn fs (joinPath folder ch.new) (joinPath folder ch.old) with
      | none => exact ⟨fs, rfl⟩
      | some g =>
        rw [hr] at h
        dsimp only at h ⊢
        cases ho : UndoManager.runUndo rn folder rest g with
        | none => exact ih g (sc + 1) ec ho
        | some p => rw [ho] at h; simp at h
    · rw [if_neg hm] at h ⊢
      exact ih fs sc (ec + 1) h

/-- C3: with an empty history, undo returns false and the history stays
empty; when the per-file loop completes, undo returns true exactly when at
least one pair of the most recent operation was reverse-renamed successfully
(missing targets are partial failures, not aborts) and the operation is
removed from history; when the loop throws for the whole batch, the
operation is restored to the top of history and the call returns false. -/
theorem claim_C3 (rn : Rn) (fs : FS) (front : List RenameOperation) (op : RenameOperation) :
    UndoManager.undo_last_operation rn ⟨[]⟩ fs = (false, ⟨[]⟩, fs) ∧
    (∀ (fs2 : FS) (b : Bool),
      UndoManager.runUndo rn op.folder_path op.changes fs = some (fs2, b) →
      UndoManager.undo_last_operation rn ⟨front ++ [op]⟩ fs = (b, ⟨front⟩, fs2)) ∧
    (UndoManager.runUndo rn op.folder_path op.changes fs = none →
      ∃ fsE, UndoManager.undo_last_operation rn ⟨front ++ [op]⟩ fs =
        (false, ⟨front ++ [op]⟩, fsE)) := by
  refine ⟨rfl, ?_, ?_⟩
  · intro fs2 b h
    obtain ⟨s, e, hu, hiff⟩ :=
      undoChanges_of_runUndo_some rn op.folder_path op.changes fs fs2 b 0 0 h
    unfold UndoManager.undo_last_operation
    simp only [List.getLast?_concat, List.dropLast_concat]
    rw [hu]
    have hb : decide (0 < 0 + s) = b := by
      rw [Nat.zero_add]
      cases b with
      | false =>
        refine decide_eq_false ?_
        intro hpos
        exact absurd (hiff.mpr hpos) (by simp)
      | true => exact decide_eq_true (hiff.mp rfl)
    dsimp only
    rw [hb]
  · intro h
    obtain ⟨fsE, hu⟩ :=
      undoChanges_of_runUndo_none rn op.folder_path op.changes fs 0 0 h
    refine ⟨fsE, ?_⟩
    unfold UndoManager.undo_last_operation
    simp only [List.getLast?_concat, List.dropLast_concat]
    rw [hu]

/-- C3 witness: one recorded pair whose target exists is reverse-renamed;
undo reports success and the history empties. -/
theorem claim_C3_witness :
    UndoManager.undo_last_operation rn0
      ⟨[⟨⟨2024, 1, 1, 0, 0, 0, 0⟩, ("d").data, [⟨("a").data, ("b").data⟩], ("id1").data⟩]⟩
      [("d/b").data] =
      (true, ⟨[]⟩, [("d/a").data]) :=
  (claim_C3 rn0 [("d/b").data] []
    ⟨⟨2024, 1, 1, 0, 0, 0, 0⟩, ("d").data, [⟨("a").data, ("b").data⟩], ("id1").data⟩).2.1
    [("d/a").data] true (by rfl)

/-! ### C4: template validation -/

/-- C4 counterexample: the token for `date` followed by a stray open brace
has unbalanced brace counts, yet `validate_template` accepts it, because the
brace checks only run when no recognized placeholder occurs — refuting the
claim that mismatched counts always make the template invalid. -/
theorem claim_C4_counterexample :
    EXIFProcessor.validate_template (EXIFProcessor.wrapPh (("date").data) ++ [lbrace]) =
      (true, ("OK").data) ∧
    lbrace ∈ EXIFProcessor.wrapPh (("date").data) ++ [lbrace] ∧
    (EXIFProcessor.wrapPh (("date").data) ++ [lbrace]).count lbrace ≠
      (EXIFProcessor.wrapPh (("date").data) ++ [lbrace]).count rbrace := by
  refine ⟨rfl, by decide, by decide⟩

/-- C4 amended: the empty template is invalid; the unbalanced-braces and
unknown-placeholder checks apply only when the template contains no
recognized placeholder substring — a template containing an open brace and no
recognized placeholder is invalid, with the unbalanced-braces message when
the brace counts differ and the unknown-placeholder message otherwise; any
other template, in particular any template containing a recognized
placeholder, is valid regardless of brace balance. -/
theorem claim_C4_amended (t : List Char) :
    (t = [] →
      EXIFProcessor.validate_template t = (false, ("Шаблон не может быть пустым").data)) ∧
    (t ≠ [] → (∀ p ∈ EXIFProcessor.PLACEHOLDERS, occursSub p t = false) → lbrace ∈ t →
      t.count lbrace ≠ t.count rbrace →
      EXIFProcessor.validate_template t = (false, ("Непарные фигурные скобки в шаблоне").data)) ∧
    (t ≠ [] → (∀ p ∈ EXIFProcessor.PLACEHOLDERS, occursSub p t = false) → lbrace ∈ t →
      t.count lbrace = t.count rbrace →
      EXIFProcessor.validate_template t = (false, ("Неизвестный плейсхолдер в шаблоне").data)) ∧
    (t ≠ [] → ((∃ p ∈ EXIFProcessor.PLACEHOLDERS, occursSub p t = true) ∨ lbrace ∉ t) →
      EXIFProcessor.validate_template t = (true, ("OK").data)) := by
  refine ⟨?_, ?_, ?_, ?_⟩
  · intro h
    subst h
    rfl
  · intro hne hnp hin hcnt
    unfold EXIFProcessor.validate_template
    rw [if_neg hne]
    have hv : EXIFProcessor.PLACEHOLDERS.any (fun p => occursSub p t) = false := by
      rw [List.any_eq_false]
      intro p hp
      rw [hnp p hp]
      simp
    dsimp only
    rw [hv]
    rw [if_pos ⟨by simp, hin⟩, if_pos hcnt]
  · intro hne hnp hin hcnt
    unfold EXIFProcessor.validate_template
    rw [if_neg hne]
    have hv : EXIFProcessor.PLACEHOLDERS.any (fun p => occursSub p t) = false := by
      rw [List.any_eq_false]
      intro p hp
      rw [hnp p hp]
      simp
    dsimp only
    rw [hv]
    rw [if_pos ⟨by simp, hin⟩, if_neg (by simp [hcnt])]
  · intro hne hd
    unfold EXIFProcessor.validate_template
    rw [if_neg hne]
    dsimp only
    rw [if_neg]
    intro hc
    rcases hd with ⟨p, hp, hocc⟩ | hnb
    · apply hc.1
      rw [List.any_eq_true]
      exact ⟨p, hp, hocc⟩
    · exact hnb hc.2

/-- C4 witness: a recognized placeholder makes a template valid, and a lone
open brace with a letter is rejected as unbalanced. -/
theorem claim_C4_witness :
    EXIFProcessor.validate_template (EXIFProcessor.wrapPh (("date").data)) =
      (true, ("OK").data) ∧
    EXIFProcessor.validate_template [lbrace, ('x')] =
      (false, ("Непарные фигурные скобки в шаблоне").data) := by
  constructor
  · exact (claim_C4_amended (EXIFProcessor.wrapPh (("date").data))).2.2.2 (by decide)
      (Or.inl ⟨EXIFProcessor.wrapPh (("date").data), by decide, by decide⟩)
  · exact (claim_C4_amended [lbrace, ('x')]).2.1 (by decide) (by decide) (by decide) (by decide)

/-! ### C6: history persistence round-trip -/

theorem digitChar_isDigit {k : Nat} (h : k < 10) : (Nat.digitChar k).isDigit = true := by
  interval_cases k <;> decide

theorem digitChar_toNat {k : Nat} (h : k < 10) : (Nat.digitChar k).toNat - 48 = k := by
  interval_cases k <;> decide

theorem readDigitsAux_pad2 {n : Nat} (h : n < 100) (rest : List Char) :
    readDigitsAux 2 0 (pad2 n ++ rest) = some (n, rest) := by
  have h1 : n / 10 % 10 < 10 := Nat.mod_lt _ (by omega)
  have h2 : n % 10 < 10 := Nat.mod_lt _ (by omega)
  simp only [pad2, List.cons_append, List.nil_append, readDigitsAux,
    digitChar_isDigit h1, digitChar_isDigit h2, if_true, digitChar_toNat h1,
    digitChar_toNat h2]
  have : (0 * 10 + n / 10 % 10) * 10 + n % 10 = n := by omega
  rw [this]
  rfl

theorem readDigitsAux_pad4 {n : Nat} (h : n < 10000) (rest : List Char) :
    readDigitsAux 4 0 (pad4 n ++ rest) = some (n, rest) := by
  have h1 : n / 1000 % 10 < 10 := Nat.mod_lt _ (by omega)
  have h2 : n / 100 % 10 < 10 := Nat.mod_lt _ (by omega)
  have h3 : n / 10 % 10 < 10 := Nat.mod_lt _ (by omega)
  have h4 : n % 10 < 10 := Nat.mod_lt _ (by omega)
  simp only [pad4, List.cons_append, List.nil_append, readDigitsAux,
    digitChar_isDigit h1, digitChar_isDigit h2, digitChar_isDigit h3,
    digitChar_isDigit h4, if_true, digitChar_toNat h1, digitChar_toNat h2,
    digitChar_toNat h3, digitChar_toNat h4]
  have : (((0 * 10 + n / 1000 % 10) * 10 + n / 100 % 10) * 10 + n / 10 % 10) * 10 + n % 10 = n := by
    omega
  rw [this]
  rfl

theorem readDigitsAux_pad6 {n : Nat} (h : n < 1000000) :
    readDigitsAux 6 0 (pad6 n) = some (n, []) := by
  have h1 : n / 100000 % 10 < 10 := Nat.mod_lt _ (by omega)
  have h2 : n / 10000 % 10 < 10 := Nat.mod_lt _ (by omega)
  have h3 : n / 1000 % 10 < 10 := Nat.mod_lt _ (by omega)
  have h4 : n / 100 % 10 < 10 := Nat.mod_lt _ (by omega)
  have h5 : n / 10 % 10 < 10 := Nat.mod_lt _ (by omega)
  have h6 : n % 10 < 10 := Nat.mod_lt _ (by omega)
  simp only [pad6, readDigitsAux,
    digitChar_isDigit h1, digitChar_isDigit h2, digitChar_isDigit h3,
    digitChar_isDigit h4, digitChar_isDigit h5, digitChar_isDigit h6, if_true,
    digitChar_toNat h1, digitChar_toNat h2, digitChar_toNat h3,
    digitChar_toNat h4, digitChar_toNat h5, digitChar_toNat h6]
  have : (((((0 * 10 + n / 100000 % 10) * 10 + n / 10000 % 10) * 10 + n / 1000 % 10) * 10 +
      n / 100 % 10) * 10 + n / 10 % 10) * 10 + n % 10 = n := by
    omega
  rw [this]

theorem expectChar_cons_self (c : Char) (t : List Char) :
    expectChar c (c :: t) = some t := by
  simp [expectChar]

theorem readSep2_cons {n : Nat} (h : n < 100) (c : Char) (rest : List Char) :
    readSep2 c (c :: (pad2 n ++ rest)) = some (n, rest) := by
  unfold readSep2
  rw [expectChar_cons_self]
  exact readDigitsAux_pad2 h rest

/-- `fromisoformat` inverts `isoformat` on every valid datetime. -/
theorem fromIso_isoformat (d : PyDatetime) (h : validDTb d = true) :
    fromIso (isoformat d) = some d := by
  obtain ⟨y, mo, dy, hh, mi, se, us⟩ := d
  simp only [validDTb, decide_eq_true_eq] at h
  obtain ⟨hy1, hy2, hm1, hm2, hd1, hd2, hhh, hmi, hse, hus⟩ := h
  have hdm : dy < 100 := by
    have : daysInMonth y mo ≤ 31 := by
      unfold daysInMonth
      split_ifs <;> omega
    omega
  unfold isoformat fromIso
  simp only []
  by_cases hus0 : us = 0
  · subst hus0
    rw [if_pos rfl]
    have hlast : readSep2 (':') ((':') :: pad2 se) = some (se, []) := by
      unfold readSep2
      rw [expectChar_cons_self]
      rw [show pad2 se = pad2 se ++ [] from by simp]
      exact readDigitsAux_pad2 (by omega) []
    simp only [List.append_assoc, List.cons_append, List.append_nil,
      readDigitsAux_pad4 (show y < 10000 by omega),
      readSep2_cons (show mo < 100 by omega),
      readSep2_cons (show dy < 100 by omega),
      readSep2_cons (show hh < 100 by omega),
      readSep2_cons (show mi < 100 by omega), hlast]
    rw [if_pos]
    exact ⟨trivial, by simp [validDTb]; omega⟩
  · rw [if_neg hus0]
    have hlast : readSep2 (':') ((':') :: (pad2 se ++ ('.') :: pad6 us)) =
        some (se, ('.') :: pad6 us) := by
      unfold readSep2
      rw [expectChar_cons_self]
      exact readDigitsAux_pad2 (by omega) _
    simp only [List.append_assoc, List.cons_append,
      readDigitsAux_pad4 (show y < 10000 by omega),
      readSep2_cons (show mo < 100 by omega),
      readSep2_cons (show dy < 100 by omega),
      readSep2_cons (show hh < 100 by omega),
      readSep2_cons (show mi < 100 by omega), hlast,
      readDigitsAux_pad6 (show us < 1000000 by omega)]
    rw [if_pos]
    exact ⟨trivial, by simp [validDTb]; omega⟩

/-- A saved operation record reloads to the identical operation. -/
theorem fromDict_toDict (op : RenameOperation) (h : validDTb op.timestamp = true) :
    UndoManager.fromDict (UndoManager.toDict op) = some op := by
  unfold UndoManager.fromDict UndoManager.toDict
  rw [fromIso_isoformat op.timestamp h]
  rfl

/-- C6: saving the history and loading the written records reproduces the
identical operation list — same timestamps, folder paths, ordered old/new
pairs, and operation ids. -/
theorem claim_C6 (ops : List RenameOperation)
    (h : ∀ op ∈ ops, validDTb op.timestamp = true) :
    UndoManager.load_history (UndoManager.save_history ops) = some ops := by
  induction ops with
  | nil => rfl
  | cons op rest ih =>
    have h1 := fromDict_toDict op (h op (List.mem_cons_self _ _))
    have h2 := ih (fun x hx => h x (List.mem_cons_of_mem _ hx))
    unfold UndoManager.save_history at h2 ⊢
    simp only [List.map_cons, UndoManager.load_history, h1, h2]

/-- C6 witness: a concrete one-operation history round-trips. -/
theorem claim_C6_witness :
    UndoManager.load_history (UndoManager.save_history
      [⟨⟨2024, 5, 17, 10, 30, 0, 123456⟩, ("f").data,
        [⟨("a.txt").data, ("b.txt").data⟩], ("id1").data⟩]) =
      some [⟨⟨2024, 5, 17, 10, 30, 0, 123456⟩, ("f").data,
        [⟨("a.txt").data, ("b.txt").data⟩], ("id1").data⟩] :=
  claim_C6 _ (by intro op hop; simp at hop; subst hop; decide)

/-! ### C7: ExposureTime formatting -/

theorem format_exposure_tup (n d : Int) :
    EXIFProcessor.format_exif_value (("ExposureTime").data) (some (.tup n d)) =
      (if d = 0 then EXIFProcessor.pyStr (.tup n d)
       else if (n : ℚ) / (d : ℚ) < 1 then
         (if n = 0 then EXIFProcessor.pyStr (.tup n d)
          else ('1') :: ('/') :: intToChars (ratTrunc (1 / ((n : ℚ) / (d : ℚ)))))
       else fmt1 ((n : ℚ) / (d : ℚ))) := by
  unfold EXIFProcessor.format_exif_value
  dsimp only
  rw [if_neg (by decide), if_neg (by decide), if_pos rfl]

theorem format_exposure_lt (n d : Int) (hn : 0 < n) (hd : 0 < d)
    (hq : (n : ℚ) / (d : ℚ) < 1) :
    EXIFProcessor.format_exif_value (("ExposureTime").data) (some (.tup n d)) =
      ("1/").data ++ natToChars (d.toNat / n.toNat) := by
  rw [format_exposure_tup, if_neg (by omega : ¬ d = 0), if_pos hq,
    if_neg (by omega : ¬ n = 0)]
  have h1 : (1 : ℚ) / ((n : ℚ) / (d : ℚ)) = (d : ℚ) / (n : ℚ) := one_div_div _ _
  rw [h1]
  have h2 : ratTrunc ((d : ℚ) / (n : ℚ)) = ((d.toNat / n.toNat : ℕ) : ℤ) := by
    unfold ratTrunc
    rw [if_neg (not_lt.mpr (div_nonneg (by exact_mod_cast hd.le) (by exact_mod_cast hn.le)))]
    have hd' : (d : ℚ) = (((d.toNat : ℕ) : ℤ) : ℚ) := by
      rw [Int.toNat_of_nonneg hd.le]
    have hn' : (n : ℚ) = ((n.toNat : ℕ) : ℚ) := by
      rw [show ((n.toNat : ℕ) : ℚ) = (((n.toNat : ℕ) : ℤ) : ℚ) from by push_cast; ring,
        Int.toNat_of_nonneg hn.le]
    rw [hd', hn', Rat.floor_intCast_div_natCast]
    exact_mod_cast rfl
  rw [h2]
  show ('1') :: ('/') :: intToChars ((d.toNat / n.toNat : ℕ) : ℤ) = _
  unfold intToChars
  rw [if_neg (not_lt.mpr (Int.natCast_nonneg _)), Int.natAbs_ofNat]
  rfl

theorem format_exposure_ge (n d : Int) (hd : 0 < d) (hq : 1 ≤ (n : ℚ) / (d : ℚ)) :
    EXIFProcessor.format_exif_value (("ExposureTime").data) (some (.tup n d)) =
      fmt1 ((n : ℚ) / (d : ℚ)) := by
  rw [format_exposure_tup, if_neg (by omega : ¬ d = 0), if_neg (not_lt.mpr hq)]

/-- C7 counterexample: for the ExposureTime rational (2, 3) the code prints
`1/1` — the truncated reciprocal — while the claim's formula, the rounded
reciprocal `round(3/2)`, gives `1/2`; the claim as stated is false. -/
theorem claim_C7_counterexample :
    EXIFProcessor.format_exif_value (("ExposureTime").data) (some (.tup 2 3)) =
      ("1/1").data ∧
    ("1/1").data ≠ ('1') :: ('/') :: intToChars (rhe (((3 : Int) : ℚ) / ((2 : Int) : ℚ))) := by
  constructor
  · exact (format_exposure_lt 2 3 (by norm_num) (by norm_num) (by norm_num)).trans (by rfl)
  · have hfloor : ⌊((3 : Int) : ℚ) / ((2 : Int) : ℚ)⌋ = 1 := by
      rw [Int.floor_eq_iff]
      constructor <;> norm_num
    have hrhe : rhe (((3 : Int) : ℚ) / ((2 : Int) : ℚ)) = 2 := by
      simp only [rhe, hfloor]
      norm_num
    rw [hrhe]
    decide

/-- C7 amended: for an ExposureTime rational (num, den) with positive parts,
a quotient below one prints `1/` followed by the reciprocal den/num
truncated to an integer (Python `int()`, i.e. floor for positive values —
not the rounded reciprocal the claim stated); otherwise the quotient printed
to one decimal; in particular (1, 500) prints `1/500`. -/
theorem claim_C7_amended (n d : Int) (hn : 0 < n) (hd : 0 < d) :
    ((n : ℚ) / (d : ℚ) < 1 →
      EXIFProcessor.format_exif_value (("ExposureTime").data) (some (.tup n d)) =
        ("1/").data ++ natToChars (d.toNat / n.toNat)) ∧
    (1 ≤ (n : ℚ) / (d : ℚ) →
      EXIFProcessor.format_exif_value (("ExposureTime").data) (some (.tup n d)) =
        fmt1 ((n : ℚ) / (d : ℚ))) :=
  ⟨fun hq => format_exposure_lt n d hn hd hq, fun hq => format_exposure_ge n d hd hq⟩

/-- C7 witness: the amended theorem at (1, 500) yields `1/500`. -/
theorem claim_C7_witness :
    EXIFProcessor.format_exif_value (("ExposureTime").data) (some (.tup 1 500)) =
      ("1/500").data :=
  ((claim_C7_amended 1 500 (by norm_num) (by norm_num)).1 (by norm_num)).trans (by rfl)

/-! ### C1: placeholder resolution -/

theorem foldl_subst_no_occur (l : List (List Char × List Char)) (acc : List Char)
    (h : ∀ pv ∈ l, occursSub pv.1 acc = false) :
    l.foldl (fun acc pv => if pv.2 ≠ [] then replaceAll pv.1 pv.2 acc else acc) acc = acc := by
  induction l with
  | nil => rfl
  | cons p rest ih =>
    simp only [List.foldl_cons]
    have hstep : (if p.2 ≠ [] then replaceAll p.1 p.2 acc else acc) = acc := by
      by_cases hc : p.2 ≠ []
      · rw [if_pos hc]
        exact replaceAll_of_not_occurs p.2 acc (h p (List.mem_cons_self p rest))
      · rw [if_neg hc]
    rw [hstep]
    exact ih (fun pv hpv => h pv (List.mem_cons_of_mem p hpv))

theorem foldl_subst_keys (l : List (List Char × List Char)) (acc : List Char)
    (keys : List (List Char)) (hk : ∀ pv ∈ l, pv.1 ∈ keys)
    (hno : ∀ p ∈ keys, occursSub p acc = false) :
    l.foldl (fun acc pv => if pv.2 ≠ [] then replaceAll pv.1 pv.2 acc else acc) acc = acc :=
  foldl_subst_no_occur l acc (fun pv hpv => hno pv.1 (hk pv hpv))

theorem foldl_removal_no_occur (l : List (List Char)) (acc : List Char)
    (h : ∀ p ∈ l, occursSub p acc = false) :
    l.foldl (fun acc p => replaceAll p [] acc) acc = acc := by
  induction l with
  | nil => rfl
  | cons p rest ih =>
    simp only [List.foldl_cons]
    rw [replaceAll_of_not_occurs [] acc (h p (List.mem_cons_self p rest))]
    exact ih (fun q hq => h q (List.mem_cons_of_mem p hq))

theorem prefix_wrap_tail :
    ∀ nm w : List Char, (∀ c ∈ nm, c ≠ rbrace) → (∀ c ∈ w, c ≠ rbrace) →
    (nm ++ [rbrace]).isPrefixOf (w ++ [rbrace]) = true → nm = w := by
  intro nm
  induction nm with
  | nil =>
    intro w _ hw h
    cases w with
    | nil => rfl
    | cons a t =>
      simp only [List.nil_append, List.cons_append, List.isPrefixOf, Bool.and_eq_true,
        beq_iff_eq] at h
      exact absurd h.1.symm (hw a (List.mem_cons_self a t))
  | cons b nb ih =>
    intro w hnm hw h
    cases w with
    | nil =>
      rw [List.isPrefixOf_iff_prefix] at h
      have hlen := h.length_le
      simp only [List.length_append, List.length_cons, List.nil_append,
        List.length_singleton] at hlen
      omega
    | cons a t =>
      simp only [List.cons_append, List.isPrefixOf, Bool.and_eq_true, beq_iff_eq] at h
      rw [h.1, ih t (fun c hc => hnm c (List.mem_cons_of_mem b hc))
        (fun c hc => hw c (List.mem_cons_of_mem a hc)) h.2]

theorem occursSub_wrap_eq_false (nm w : List Char)
    (hnm : ∀ c ∈ nm, c ≠ lbrace ∧ c ≠ rbrace) (hw : ∀ c ∈ w, c ≠ lbrace ∧ c ≠ rbrace)
    (hne : nm ≠ w) :
    occursSub (EXIFProcessor.wrapPh nm) (EXIFProcessor.wrapPh w) = false := by
  have hw1 : EXIFProcessor.wrapPh nm = lbrace :: (nm ++ [rbrace]) := by
    simp [EXIFProcessor.wrapPh]
  have hw2 : EXIFProcessor.wrapPh w = lbrace :: (w ++ [rbrace]) := by
    simp [EXIFProcessor.wrapPh]
  rw [hw1, hw2]
  simp only [occursSub]
  have hright : occursSub (lbrace :: (nm ++ [rbrace])) (w ++ [rbrace]) = false := by
    apply occursSub_eq_false_of_head_not_mem
    intro hmem
    rcases List.mem_append.mp hmem with hin | hin
    · exact (hw lbrace hin).1 rfl
    · rw [List.mem_singleton] at hin
      exact absurd hin (by decide)
  rw [hright]
  have hleft : (lbrace :: (nm ++ [rbrace])).isPrefixOf (lbrace :: (w ++ [rbrace])) = false := by
    cases hb : (lbrace :: (nm ++ [rbrace])).isPrefixOf (lbrace :: (w ++ [rbrace]))
    · rfl
    · exfalso
      simp only [List.isPrefixOf, Bool.and_eq_true, beq_iff_eq] at hb
      exact hne (prefix_wrap_tail nm w (fun c hc => (hnm c hc).2)
        (fun c hc => (hw c hc).2) hb.2)
  rw [hleft]
  rfl

theorem placeholderNames_brace_free :
    ∀ nm ∈ EXIFProcessor.placeholderNames, ∀ c ∈ nm, c ≠ lbrace ∧ c ≠ rbrace := by
  decide

theorem extract_values_keys (e : ExifData) :
    ∀ pv ∈ EXIFProcessor.extract_values e, pv.1 ∈ EXIFProcessor.PLACEHOLDERS := by
  intro pv hm
  unfold EXIFProcessor.extract_values at hm
  simp only [List.mem_append] at hm
  rcases hm with ((((hA | hB) | hC) | hD) | hE)
  · split at hA
    · simp only [List.mem_cons, List.not_mem_nil, or_false] at hA
      rcases hA with rfl | rfl | rfl <;> (dsimp only; decide)
    · simp at hA
  · split at hB
    · simp only [List.mem_cons, List.not_mem_nil, or_false] at hB
      rcases hB with rfl | rfl <;> (dsimp only; decide)
    · simp at hB
  · split at hC
    · simp only [List.mem_singleton] at hC
      rw [hC]
      dsimp only
      decide
    · simp at hC
  · split at hD
    · simp only [List.mem_singleton] at hD
      rw [hD]
      dsimp only
      decide
    · simp at hD
  · simp only [List.mem_cons, List.not_mem_nil, or_false] at hE
    rcases hE with rfl | rfl | rfl | rfl | rfl | rfl | rfl | rfl | rfl | rfl <;>
      (dsimp only; decide)

theorem collapseUsF_id : ∀ (f : Nat) (s : List Char), (∀ c ∈ s, c ≠ '_') →
    collapseUsF f s = s := by
  intro f
  induction f with
  | zero => intro s _; cases s <;> rfl
  | succ g ih =>
    intro s h
    cases s with
    | nil => rfl
    | cons c t =>
      simp only [collapseUsF]
      rw [if_neg (h c (List.mem_cons_self c t)), ih t (fun x hx => h x (List.mem_cons_of_mem c hx))]

theorem collapseUs_id (s : List Char) (h : ∀ c ∈ s, c ≠ '_') : collapseUs s = s :=
  collapseUsF_id s.length s h

theorem trimUnd_id (s : List Char) (h1 : s.head? ≠ some '_') (h2 : s.getLast? ≠ some '_') :
    trimUnd s = s := by
  unfold trimUnd
  rw [if_neg h1]
  dsimp only
  rw [if_neg h2]

/-- C1 counterexample: with a non-empty EXIF map (Model present) and the
template made of the unrecognized token for `foo` and the recognized token
for `camera`, the output still contains the unrecognized token literally —
refuting the claim that unrecognized placeholder syntax is deleted. -/
theorem claim_C1_counterexample :
    isEmptyExif { model := some (("Canon").data) } = false ∧
    EXIFProcessor.generate_filename_from_exif { model := some (("Canon").data) }
      (("a.jpg").data)
      (EXIFProcessor.wrapPh (("foo").data) ++ ('_') :: EXIFProcessor.wrapPh (("camera").data)) =
      EXIFProcessor.wrapPh (("foo").data) ++ ("_Canon.jpg").data ∧
    occursSub (EXIFProcessor.wrapPh (("foo").data))
      (EXIFProcessor.wrapPh (("foo").data) ++ ("_Canon.jpg").data) = true :=
  ⟨rfl, rfl, rfl⟩

/-- C1 amended: recognized placeholders with no value are deleted from the
template, but unrecognized placeholder syntax is NOT deleted — it stays in
the output literally. Part one: for every non-empty EXIF map, a template
that is a single unrecognized brace token (name free of braces and
underscores) passes through unchanged, with the original extension
re-appended. Part two: on a map with no date fields and Model `Canon`, the
template `date`-token underscore `camera`-token resolves to `Canon.jpg` —
the valueless recognized `date` token is deleted entirely together with the
now-dangling separator. -/
theorem claim_C1_amended :
    (∀ (w fn : List Char) (e : ExifData),
      (∀ c ∈ w, c ≠ lbrace ∧ c ≠ rbrace ∧ c ≠ '_') →
      w ∉ EXIFProcessor.placeholderNames →
      isEmptyExif e = false →
      EXIFProcessor.generate_filename_from_exif e fn (EXIFProcessor.wrapPh w) =
        EXIFProcessor.wrapPh w ++ (splitext fn).2) ∧
    (∀ e : ExifData,
      e.dateTimeOriginal = none → e.dateTimeDigitized = none → e.dateTime = none →
      e.model = some (("Canon").data) →
      EXIFProcessor.generate_filename_from_exif e (("a.jpg").data)
        (EXIFProcessor.wrapPh (("date").data) ++
          ('_') :: EXIFProcessor.wrapPh (("camera").data)) =
        ("Canon.jpg").data) := by
  constructor
  · intro w fn e hw hnm he
    have hno : ∀ p ∈ EXIFProcessor.PLACEHOLDERS, occursSub p (EXIFProcessor.wrapPh w) = false := by
      intro p hp
      obtain ⟨nm, hmem, rfl⟩ := List.mem_map.mp hp
      exact occursSub_wrap_eq_false nm w (placeholderNames_brace_free nm hmem)
        (fun c hc => ⟨(hw c hc).1, (hw c hc).2.1⟩) (fun heq => hnm (heq ▸ hmem))
    have hchars : ∀ c ∈ EXIFProcessor.wrapPh w, c ≠ '_' := by
      intro c hc
      simp only [EXIFProcessor.wrapPh, List.cons_append, List.mem_cons, List.mem_append,
        List.mem_singleton, List.not_mem_nil, or_false] at hc
      rcases hc with rfl | hc | rfl
      · decide
      · exact (hw c hc).2.2
      · decide
    have hhead : (EXIFProcessor.wrapPh w).head? ≠ some '_' := by
      show (lbrace :: (w ++ [rbrace])).head? ≠ some '_'
      simp only [List.head?_cons, ne_eq, Option.some.injEq]
      decide
    have hlast : (EXIFProcessor.wrapPh w).getLast? ≠ some '_' := by
      show ((lbrace :: w) ++ [rbrace]).getLast? ≠ some '_'
      rw [List.getLast?_concat]
      simp only [ne_eq, Option.some.injEq]
      decide
    unfold EXIFProcessor.generate_filename_from_exif
    rw [if_neg (by simp [he])]
    dsimp only
    rw [foldl_subst_keys _ _ EXIFProcessor.PLACEHOLDERS (extract_values_keys e) hno]
    rw [foldl_removal_no_occur EXIFProcessor.PLACEHOLDERS (EXIFProcessor.wrapPh w) hno]
    rw [collapseUs_id _ hchars, trimUnd_id _ hhead hlast]
    rw [if_neg]
    intro hcond
    rcases hcond with hcond | hcond
    · exact absurd hcond (by simp [EXIFProcessor.wrapPh])
    · rw [show EXIFProcessor.wrapPh w = lbrace :: (w ++ [rbrace]) from by
        simp [EXIFProcessor.wrapPh]] at hcond
      rw [List.filter_cons_of_pos (by decide)] at hcond
      exact absurd hcond (by simp)
  · intro e h1 h2 h3 hm
    have hcd : EXIFProcessor.creationDatetime e = none := by
      unfold EXIFProcessor.creationDatetime
      rw [h1, h2, h3]
    unfold EXIFProcessor.generate_filename_from_exif
    rw [if_neg (by simp [isEmptyExif, hm])]
    dsimp only
    unfold EXIFProcessor.extract_values
    rw [hcd, hm]
    simp only [Option.getD_some]
    rw [if_pos (show (("Canon").data : List Char) ≠ [] from by decide)]
    rw [List.nil_append]
    rw [List.foldl_append, List.foldl_append, List.foldl_append]
    have hB : List.foldl (fun acc pv => if pv.2 ≠ [] then replaceAll pv.1 pv.2 acc else acc)
        (EXIFProcessor.wrapPh (("date").data) ++
          ('_') :: EXIFProcessor.wrapPh (("camera").data))
        [(EXIFProcessor.wrapPh (("camera").data),
            EXIFProcessor.clean_for_filename (("Canon").data)),
         (EXIFProcessor.wrapPh (("model").data),
            EXIFProcessor.clean_for_filename (("Canon").data))] =
        EXIFProcessor.wrapPh (("date").data) ++ ('_') :: ("Canon").data := by rfl
    rw [hB]
    have hC : List.foldl (fun acc pv => if pv.2 ≠ [] then replaceAll pv.1 pv.2 acc else acc)
        (EXIFProcessor.wrapPh (("date").data) ++ ('_') :: ("Canon").data)
        (if e.make.getD [] ≠ [] then
          [(EXIFProcessor.wrapPh (("make").data),
            EXIFProcessor.clean_for_filename (e.make.getD []))]
        else []) =
        EXIFProcessor.wrapPh (("date").data) ++ ('_') :: ("Canon").data := by
      apply foldl_subst_keys _ _ [EXIFProcessor.wrapPh (("make").data)]
      · intro pv hpv
        split at hpv
        · simp only [List.mem_singleton] at hpv
          rw [hpv]
          exact List.mem_singleton.mpr rfl
        · simp at hpv
      · intro p hp
        simp only [List.mem_singleton] at hp
        rw [hp]
        decide
    rw [hC]
    have hD : List.foldl (fun acc pv => if pv.2 ≠ [] then replaceAll pv.1 pv.2 acc else acc)
        (EXIFProcessor.wrapPh (("date").data) ++ ('_') :: ("Canon").data)
        (if e.lensModel.getD [] ≠ [] then
          [(EXIFProcessor.wrapPh (("lens").data),
            EXIFProcessor.clean_for_filename (e.lensModel.getD []))]
        else []) =
        EXIFProcessor.wrapPh (("date").data) ++ ('_') :: ("Canon").data := by
      apply foldl_subst_keys _ _ [EXIFProcessor.wrapPh (("lens").data)]
      · intro pv hpv
        split at hpv
        · simp only [List.mem_singleton] at hpv
          rw [hpv]
          exact List.mem_singleton.mpr rfl
        · simp at hpv
      · intro p hp
        simp only [List.mem_singleton] at hp
        rw [hp]
        decide
    rw [hD]
    have hE : List.foldl (fun acc pv => if pv.2 ≠ [] then replaceAll pv.1 pv.2 acc else acc)
        (EXIFProcessor.wrapPh (("date").data) ++ ('_') :: ("Canon").data)
        [(EXIFProcessor.wrapPh (("focal").data), EXIFProcessor.focalValue e.focalLength),
         (EXIFProcessor.wrapPh (("aperture").data), EXIFProcessor.apertureValue e.fNumber),
         (EXIFProcessor.wrapPh (("shutter").data), EXIFProcessor.shutterValue e.exposureTime),
         (EXIFProcessor.wrapPh (("iso").data), EXIFProcessor.optIntValue e.isoSpeedRatings),
         (EXIFProcessor.wrapPh (("width").data), EXIFProcessor.optIntValue e.imageWidth),
         (EXIFProcessor.wrapPh (("height").data), EXIFProcessor.optIntValue e.imageHeight),
         (EXIFProcessor.wrapPh (("orientation").data), EXIFProcessor.optIntValue e.orientation),
         (EXIFProcessor.wrapPh (("artist").data), EXIFProcessor.optCleanValue e.artist),
         (EXIFProcessor.wrapPh (("copyright").data), EXIFProcessor.optCleanValue e.copyright),
         (EXIFProcessor.wrapPh (("software").data), EXIFProcessor.optCleanValue e.software)] =
        EXIFProcessor.wrapPh (("date").data) ++ ('_') :: ("Canon").data := by
      apply foldl_subst_keys _ _
        [EXIFProcessor.wrapPh (("focal").data), EXIFProcessor.wrapPh (("aperture").data),
         EXIFProcessor.wrapPh (("shutter").data), EXIFProcessor.wrapPh (("iso").data),
         EXIFProcessor.wrapPh (("width").data), EXIFProcessor.wrapPh (("height").data),
         EXIFProcessor.wrapPh (("orientation").data), EXIFProcessor.wrapPh (("artist").data),
         EXIFProcessor.wrapPh (("copyright").data), EXIFProcessor.wrapPh (("software").data)]
      · intro pv hpv
        simp only [List.mem_cons, List.not_mem_nil, or_false] at hpv
        rcases hpv with rfl | rfl | rfl | rfl | rfl | rfl | rfl | rfl | rfl | rfl <;>
          (dsimp only; decide)
      · intro p hp
        simp only [List.mem_cons, List.not_mem_nil, or_false] at hp
        rcases hp with rfl | rfl | rfl | rfl | rfl | rfl | rfl | rfl | rfl | rfl <;> decide
    rw [hE]
    rfl

/-- C1 witness: the amended theorem applied at a concrete map with Model
`Canon`: the unrecognized token for `foo` survives with the extension
re-appended, and the valueless `date` token is deleted entirely. -/
theorem claim_C1_witness :
    EXIFProcessor.generate_filename_from_exif { model := some (("Canon").data) }
      (("a.jpg").data) (EXIFProcessor.wrapPh (("foo").data)) =
      EXIFProcessor.wrapPh (("foo").data) ++ (".jpg").data ∧
    EXIFProcessor.generate_filename_from_exif { model := some (("Canon").data) }
      (("a.jpg").data)
      (EXIFProcessor.wrapPh (("date").data) ++
        ('_') :: EXIFProcessor.wrapPh (("camera").data)) =
      ("Canon.jpg").data :=
  ⟨(claim_C1_amended.1 (("foo").data) (("a.jpg").data) { model := some (("Canon").data) }
      (by decide) (by decide) rfl).trans (by rfl),
   claim_C1_amended.2 { model := some (("Canon").data) } rfl rfl rfl rfl⟩

end BatchRenamer
